import Mathlib

/-!
# Farc Mind memory grid (src/pages/index.js)

A shallow embedding of the game controller of `src/pages/index.js`: the React
state of `Home`, the interval stored in `intervalRef`, and the three handlers
that mutate them (`startGame`, the interval callback of `runShowSequence`, and
`handleTileClick`).

Modelling conventions.

* Each handler invocation is one atomic state transition (React flushes the
  batched updates of a handler before the next event is dispatched).
* `Math.random()` is a parameter `rand : Nat → ℚ`; `rand i` is the value of the
  i-th call made during one handler invocation. The product with `total` is the
  binary64 product: the exact product rounded to nearest, ties to even
  (`roundBinary64`). `Math.floor` of a binary64 number is exact.
* The integers of the program (grid size, lengths, counters, score) are far
  below 2^53, where binary64 arithmetic on integers is exact; they are `Nat`.
* A JavaScript array read `a[i]` is `a[i]?`; `none` stands for `undefined`.
* The audio helpers and the local-storage effects do not touch the game state
  and are left out.
-/

namespace FarcMind

/-- Source: `const MIN_GRID_SIZE = 3`. -/
def MIN_GRID_SIZE : Nat := 3

/-- Source: `const MAX_GRID_SIZE = 5`. -/
def MAX_GRID_SIZE : Nat := 5

/-- The four values taken by the `phase` state variable. -/
inductive Phase where
  | idle
  | showing
  | input
  | gameover
  deriving DecidableEq, Repr

/-- Round to the nearest integer; a value half way between two integers goes to
the even one. -/
def roundHalfEven (x : ℚ) : Int :=
  let f := Int.floor x
  let d := x - (f : ℚ)
  if d < 1 / 2 then f
  else if 1 / 2 < d then f + 1
  else if f % 2 = 0 then f
  else f + 1

/-- The exponent of the spacing of the binary64 numbers around `x`: 52 below the
binary exponent of `x`, and never below -1074 (the subnormal range). -/
def ulpExponent (x : ℚ) : Int :=
  max (Int.log 2 |x| - 52) (-1074)

/-- The binary64 value of a real result under the default rounding of IEEE 754
(to nearest, ties to even), as performed by the `*` of JavaScript. The exponent
range is not bounded above: overflow to `Infinity` needs a magnitude of 2^1024,
and the products of this program stay below the number of cells. -/
def roundBinary64 (x : ℚ) : ℚ :=
  (roundHalfEven (x / (2 : ℚ) ^ ulpExponent x) : ℚ) * (2 : ℚ) ^ ulpExponent x

/-- The finite binary64 numbers: a significand below 2^53 times a power of two
whose exponent is in the range of the format. -/
def IsBinary64 (x : ℚ) : Prop :=
  ∃ (m : Nat) (e : Int), m < 2 ^ 53 ∧ -1074 ≤ e ∧ e ≤ 971 ∧ |x| = (m : ℚ) * (2 : ℚ) ^ e

/-- The body of the `for` loop of `createRandomSequence` run `n` times:
iteration `i` pushes `Math.floor(Math.random() * total)`. -/
def pushDraws (rand : Nat → ℚ) (total : Nat) : Nat → List Int
  | 0 => []
  | n + 1 => pushDraws rand total n ++ [Int.floor (roundBinary64 (rand n * (total : ℚ)))]

/-- Source: `createRandomSequence(gridSize, length)`. -/
def createRandomSequence (rand : Nat → ℚ) (gridSize length : Nat) : List Int :=
  let total := gridSize * gridSize
  pushDraws rand total length

/-- The closure of the interval callback created by `runShowSequence`: the
captured `seq` and the captured mutable counter `i`. -/
structure Timer where
  seq : List Int
  i : Nat

/-- The state of the `Home` component: the nine `useState` cells and
`intervalRef.current` (`none` is `null`). -/
structure State where
  gridSize : Nat
  sequence : List Int
  phase : Phase
  showIndex : Option Int
  stepIndex : Nat
  round : Nat
  score : Nat
  bestScore : Int
  message : String
  interval : Option Timer

/-- The state on mount, once the stored best score `best` has been loaded. -/
def initState (best : Int) : State :=
  { gridSize := MIN_GRID_SIZE
    sequence := []
    phase := Phase.idle
    showIndex := some (-1)
    stepIndex := 0
    round := 0
    score := 0
    bestScore := best
    message := "Tap START to begin."
    interval := none }

/-- Source: `clearTimer()`. -/
def clearTimer (s : State) : State :=
  { s with interval := none }

/-- Source: `runShowSequence(seq)`, up to and including `setInterval`. -/
def runShowSequence (seq : List Int) (s : State) : State :=
  let s := clearTimer s
  let s := { s with phase := Phase.showing }
  let s := { s with message := "Watch the pattern..." }
  let s := { s with showIndex := seq[0]? }
  { s with interval := some { seq := seq, i := 0 } }

/-- Source: `startGame()`. -/
def startGame (rand : Nat → ℚ) (s : State) : State :=
  let s := clearTimer s
  let baseGrid := MIN_GRID_SIZE
  let s := { s with gridSize := baseGrid }
  let initialSeq := createRandomSequence rand baseGrid 3
  let s := { s with sequence := initialSeq }
  let s := { s with round := 1 }
  let s := { s with score := 0 }
  let s := { s with stepIndex := 0 }
  let s := { s with phase := Phase.showing }
  let s := { s with message := "Watch the pattern..." }
  runShowSequence initialSeq s

/-- One firing of the interval callback installed by `runShowSequence`. With no
interval pending nothing fires and the state is left as it is. -/
def tick (s : State) : State :=
  match s.interval with
  | none => s
  | some t =>
    let i := t.i + 1
    if i ≥ t.seq.length then
      let s := clearTimer s
      let s := { s with showIndex := some (-1) }
      let s := { s with stepIndex := 0 }
      let s := { s with phase := Phase.input }
      { s with message := "Now tap the tiles in order." }
    else
      { s with interval := some { seq := t.seq, i := i }, showIndex := t.seq[i]? }

/-- Source: `handleTileClick(index)`. -/
def handleTileClick (rand : Nat → ℚ) (index : Int) (s : State) : State :=
  if s.phase ≠ Phase.input then s
  else
    let expected := s.sequence[s.stepIndex]?
    if some index = expected then
      let nextStep := s.stepIndex + 1
      if nextStep ≥ s.sequence.length then
        let newRound := s.round + 1
        let newScore := s.score + s.sequence.length * 10
        let s1 := { s with round := newRound }
        let s1 := { s1 with score := newScore }
        let s1 := if (newScore : Int) > s.bestScore then { s1 with bestScore := newScore } else s1
        let newGridSize :=
          if newRound % 3 = 0 ∧ s.gridSize < MAX_GRID_SIZE then s.gridSize + 1 else s.gridSize
        let s1 := { s1 with gridSize := newGridSize }
        let nextSeq :=
          createRandomSequence rand newGridSize (min (s.sequence.length + 1) (newGridSize * newGridSize))
        let s1 := { s1 with sequence := nextSeq }
        let s1 := { s1 with phase := Phase.showing }
        let s1 := { s1 with message := "Nice! Watch the next pattern..." }
        runShowSequence nextSeq s1
      else
        { s with stepIndex := nextStep }
    else
      let s := clearTimer s
      let s := { s with phase := Phase.gameover }
      let s := { s with showIndex := some index }
      { s with message := "Game over. Tap RESTART to try again." }

/-- The triggers that reach the controller: the start button, a tile tap and a
firing of the playback interval. The first two carry the values `Math.random`
returns while the handler runs. -/
inductive Event where
  | start (rand : Nat → ℚ)
  | tap (index : Int) (rand : Nat → ℚ)
  | tick

/-- The transition taken on one trigger. -/
def step (s : State) : Event → State
  | Event.start rand => startGame rand s
  | Event.tap index rand => handleTileClick rand index s
  | Event.tick => tick s

/-- The state after a list of triggers, oldest first. -/
def run (s : State) (evs : List Event) : State :=
  evs.foldl step s

/-- The tap `index` completes the round: the controller is in the input phase,
the tap matches the expected cell and that cell is the last one. These are the
three guards on the path to the round-success branch of `handleTileClick`. -/
def completes (s : State) (index : Int) : Prop :=
  s.phase = Phase.input ∧ s.sequence[s.stepIndex]? = some index ∧
    s.stepIndex + 1 ≥ s.sequence.length

instance (s : State) (index : Int) : Decidable (completes s index) := by
  unfold completes; infer_instance

/-- The grid size after a completed round, as computed by the round-success
branch of `handleTileClick` (`newGridSize`). -/
def grownGridSize (s : State) : Nat :=
  if (s.round + 1) % 3 = 0 ∧ s.gridSize < MAX_GRID_SIZE then s.gridSize + 1 else s.gridSize

/-- The length passed to `createRandomSequence` by the round-success branch of
`handleTileClick`. -/
def nextLength (s : State) : Nat :=
  min (s.sequence.length + 1) (grownGridSize s * grownGridSize s)

/-- One trigger, with a record of the run kept alongside the state: the lengths
of the sequences reproduced in the rounds completed since the last start. -/
def logStep (p : State × List Nat) : Event → State × List Nat
  | Event.start rand => (startGame rand p.1, [])
  | Event.tap index rand =>
    (handleTileClick rand index p.1,
      if completes p.1 index then p.2 ++ [p.1.sequence.length] else p.2)
  | Event.tick => (tick p.1, p.2)

/-- The state and the record of completed rounds after a list of triggers. -/
def runLog (p : State × List Nat) (evs : List Event) : State × List Nat :=
  evs.foldl logStep p

/-- A state in the input phase with the player at the second of three cells. -/
def sampleInput : State :=
  { gridSize := 3
    sequence := [2, 4, 6]
    phase := Phase.input
    showIndex := some (-1)
    stepIndex := 1
    round := 1
    score := 0
    bestScore := 0
    message := "Now tap the tiles in order."
    interval := none }

/-- A state in the input phase with the player at the last of three cells, with
round counter 2, score 30 and best score 50. -/
def sampleLast : State :=
  { gridSize := 3
    sequence := [2, 4, 6]
    phase := Phase.input
    showIndex := some (-1)
    stepIndex := 2
    round := 2
    score := 30
    bestScore := 50
    message := "Now tap the tiles in order."
    interval := none }

/-- A state in the middle of a playback: the second of three cells is shown. -/
def sampleShowing : State :=
  { gridSize := 3
    sequence := [2, 4, 6]
    phase := Phase.showing
    showIndex := some 4
    stepIndex := 0
    round := 1
    score := 0
    bestScore := 0
    message := "Watch the pattern..."
    interval := some { seq := [2, 4, 6], i := 1 } }

/-- A run from the idle state that reaches the input phase of the first round:
a start and the three ticks of the playback. The random source returns one half
each time, so the pattern is cell 4 three times. -/
def samplePlayback : List Event :=
  [Event.start (fun _ => 1 / 2), Event.tick, Event.tick, Event.tick]

/-- A random source that returns 0 at every call, so that every generated cell
is cell 0. -/
def zeroRand : Nat → ℚ := fun _ => 0

/-- After a start: the playback of the first pattern and its first two cells. -/
def sampleFirstRound : List Event :=
  [Event.tick, Event.tick, Event.tick, Event.tap 0 zeroRand, Event.tap 0 zeroRand]

/-- After a start: the first round played to the end, the playback of the second
pattern (four cells) and its first three cells. -/
def sampleSecondRound : List Event :=
  [Event.tick, Event.tick, Event.tick,
    Event.tap 0 zeroRand, Event.tap 0 zeroRand, Event.tap 0 zeroRand,
    Event.tick, Event.tick, Event.tick, Event.tick,
    Event.tap 0 zeroRand, Event.tap 0 zeroRand, Event.tap 0 zeroRand]

/-- Every value the random source returns during this trigger is a binary64
number in [0, 1). -/
def Event.randOk : Event → Prop
  | Event.start rand => ∀ i, IsBinary64 (rand i) ∧ 0 ≤ rand i ∧ rand i < 1
  | Event.tap _ rand => ∀ i, IsBinary64 (rand i) ∧ 0 ≤ rand i ∧ rand i < 1
  | Event.tick => True

/-- The trigger is a press of the start button. -/
def Event.isStart : Event → Bool
  | Event.start _ => true
  | _ => false

/-- A pending playback interval only exists in the showing phase. -/
def TimerInv (s : State) : Prop :=
  s.interval ≠ none → s.phase = Phase.showing

/-- Bounds on the grid, the step pointer and the pattern length. -/
def Shape (s : State) : Prop :=
  3 ≤ s.gridSize ∧ s.gridSize ≤ 5 ∧ s.stepIndex ≤ s.sequence.length ∧
    s.sequence.length ≤ s.gridSize * s.gridSize

/-- Every element of the pattern is a cell of the current grid. -/
def InRange (s : State) : Prop :=
  ∀ x ∈ s.sequence, 0 ≤ x ∧ x < ((s.gridSize * s.gridSize : Nat) : Int)

/-- The grid size as a function of the round counter. -/
def GridOfRound (s : State) : Prop :=
  s.gridSize = min 5 (3 + s.round / 3)

/-- The bookkeeping of a run begun by startGame, against its record of
completed rounds. -/
def RunInv (p : State × List Nat) : Prop :=
  p.1.round = p.2.length + 1 ∧ GridOfRound p.1 ∧
    p.1.sequence.length = min (3 + p.2.length) (p.1.gridSize * p.1.gridSize) ∧
    p.1.score = (p.2.map (fun l => l * 10)).sum

/-! ## The sequence generator -/

theorem pushDraws_length (rand : Nat → ℚ) (total n : Nat) :
    (pushDraws rand total n).length = n := by
  induction n with
  | zero => rfl
  | succ n ih => simp [pushDraws, ih]

theorem createRandomSequence_length (rand : Nat → ℚ) (gridSize length : Nat) :
    (createRandomSequence rand gridSize length).length = length := by
  simp [createRandomSequence, pushDraws_length]

/-! ## Binary64 rounding of a draw -/

theorem roundBinary64_zero : roundBinary64 0 = 0 := by
  simp [roundBinary64, roundHalfEven]

theorem roundHalfEven_nonneg (x : ℚ) (h : 0 ≤ x) : 0 ≤ roundHalfEven x := by
  have hf : 0 ≤ Int.floor x := Int.floor_nonneg.mpr h
  unfold roundHalfEven
  simp only
  split
  · exact hf
  · split
    · omega
    · split <;> omega

theorem roundHalfEven_le_pred (x : ℚ) (t : Int) (h : x < (t : ℚ) - 1 / 2) :
    roundHalfEven x ≤ t - 1 := by
  have hfx : ((Int.floor x : Int) : ℚ) ≤ x := Int.floor_le x
  have hft : Int.floor x < t := by
    have : ((Int.floor x : Int) : ℚ) < (t : ℚ) := by linarith
    exact_mod_cast this
  unfold roundHalfEven
  simp only
  split
  · omega
  · rename_i hd
    have hd2 : (1 : ℚ) / 2 ≤ x - ((Int.floor x : Int) : ℚ) := not_lt.mp hd
    have : ((Int.floor x : Int) : ℚ) < ((t - 1 : Int) : ℚ) := by
      push_cast
      linarith
    have hft2 : Int.floor x < t - 1 := by exact_mod_cast this
    split
    · omega
    · split <;> omega

theorem round_scaled_lt (x : ℚ) (q : Int) (total : Nat) (hq : q ≤ 0)
    (hT : (2 : ℚ) ^ (q + 52) < (total : ℚ))
    (hx : x ≤ (total : ℚ) * (1 - 1 / 2 ^ 53)) :
    (roundHalfEven (x / (2 : ℚ) ^ q) : ℚ) * (2 : ℚ) ^ q < (total : ℚ) := by
  obtain ⟨p, hp⟩ := Int.exists_eq_neg_ofNat hq
  have hP : (0 : ℚ) < (2 : ℚ) ^ p := by positivity
  have h2q : (2 : ℚ) ^ q = ((2 : ℚ) ^ p)⁻¹ := by
    rw [hp, zpow_neg, zpow_natCast]
  have hT2 : (2 : ℚ) ^ 52 < (total : ℚ) * (2 : ℚ) ^ p := by
    have h1 : (2 : ℚ) ^ (q + 52) = (2 : ℚ) ^ 52 * ((2 : ℚ) ^ p)⁻¹ := by
      rw [zpow_add₀ (by norm_num : (2 : ℚ) ≠ 0), h2q, mul_comm]
      norm_cast
    rw [h1] at hT
    have h2 := mul_lt_mul_of_pos_right hT hP
    rwa [mul_assoc, inv_mul_cancel₀ hP.ne', mul_one] at h2
  have hn : x / (2 : ℚ) ^ q = x * (2 : ℚ) ^ p := by
    rw [h2q, div_eq_mul_inv, inv_inv]
  have hlt : x * (2 : ℚ) ^ p < (((total * 2 ^ p : Nat) : Int) : ℚ) - 1 / 2 := by
    push_cast
    have h3 : x * (2 : ℚ) ^ p ≤ (total : ℚ) * (1 - 1 / 2 ^ 53) * (2 : ℚ) ^ p :=
      mul_le_mul_of_nonneg_right hx hP.le
    have h4 : (total : ℚ) * (1 - 1 / 2 ^ 53) * (2 : ℚ) ^ p =
        (total : ℚ) * (2 : ℚ) ^ p - (total : ℚ) * (2 : ℚ) ^ p / 2 ^ 53 := by ring
    have h5 : (1 : ℚ) / 2 < (total : ℚ) * (2 : ℚ) ^ p / 2 ^ 53 := by
      rw [lt_div_iff₀ (by positivity)]
      have : (1 : ℚ) / 2 * 2 ^ 53 = 2 ^ 52 := by norm_num
      rw [this]
      exact hT2
    linarith
  have hr := roundHalfEven_le_pred (x * (2 : ℚ) ^ p) ((total * 2 ^ p : Nat) : Int) hlt
  have hr2 : (roundHalfEven (x * (2 : ℚ) ^ p) : ℚ) ≤ (total : ℚ) * (2 : ℚ) ^ p - 1 := by
    have : (roundHalfEven (x * (2 : ℚ) ^ p) : ℚ) ≤ ((((total * 2 ^ p : Nat) : Int) - 1 : Int) : ℚ) := by
      exact_mod_cast hr
    push_cast at this
    exact this
  rw [hn, h2q]
  have hPi : (0 : ℚ) < ((2 : ℚ) ^ p)⁻¹ := inv_pos.mpr hP
  calc (roundHalfEven (x * (2 : ℚ) ^ p) : ℚ) * ((2 : ℚ) ^ p)⁻¹
      ≤ ((total : ℚ) * (2 : ℚ) ^ p - 1) * ((2 : ℚ) ^ p)⁻¹ :=
        mul_le_mul_of_nonneg_right hr2 hPi.le
    _ = (total : ℚ) - ((2 : ℚ) ^ p)⁻¹ := by
        rw [sub_mul, mul_assoc, mul_inv_cancel₀ hP.ne', mul_one, one_mul]
    _ < (total : ℚ) := by linarith

theorem ulpExponent_facts (x : ℚ) (total : Nat) (hx0 : 0 < x) (hxt : x < (total : ℚ))
    (ht : total ≤ 2 ^ 53) :
    ulpExponent x ≤ 0 ∧ (2 : ℚ) ^ (ulpExponent x + 52) < (total : ℚ) := by
  have habs : |x| = x := abs_of_pos hx0
  have hlow : ((2 : ℕ) : ℚ) ^ Int.log 2 x ≤ x := Int.zpow_log_le_self (by norm_num) hx0
  have hx53 : x < ((2 : ℕ) : ℚ) ^ (53 : Int) := by
    have : (total : ℚ) ≤ ((2 ^ 53 : Nat) : ℚ) := by exact_mod_cast ht
    have h2 : ((2 ^ 53 : Nat) : ℚ) = ((2 : ℕ) : ℚ) ^ (53 : Int) := by norm_num
    linarith
  have hk : Int.log 2 x < 53 := (Int.lt_zpow_iff_log_lt (by norm_num) hx0).mp hx53
  unfold ulpExponent
  rw [habs]
  have h1 : (1 : ℚ) ≤ (total : ℚ) := by
    have : 0 < total := by
      have : (0 : ℚ) < (total : ℚ) := lt_trans hx0 hxt
      exact_mod_cast this
    exact_mod_cast this
  constructor
  · omega
  · rcases le_total (Int.log 2 x - 52) (-1074) with hm | hm
    · rw [max_eq_right hm]
      have : (2 : ℚ) ^ ((-1074 : Int) + 52) < 1 := by norm_num
      linarith
    · rw [max_eq_left hm]
      have : Int.log 2 x - 52 + 52 = Int.log 2 x := by ring
      rw [this]
      have h3 : (2 : ℚ) ^ Int.log 2 x ≤ x := by simpa using hlow
      linarith

theorem binary64_below_one (r : ℚ) (hb : IsBinary64 r) (h0 : 0 ≤ r) (h1 : r < 1) :
    r ≤ 1 - 1 / 2 ^ 53 := by
  obtain ⟨m, e, hm, _, _, hr⟩ := hb
  rw [abs_of_nonneg h0] at hr
  have hm2 : (m : ℚ) ≤ 2 ^ 53 - 1 := by
    have : m + 1 ≤ 2 ^ 53 := hm
    have h : ((m + 1 : Nat) : ℚ) ≤ ((2 ^ 53 : Nat) : ℚ) := by exact_mod_cast this
    push_cast at h
    linarith
  rcases le_or_lt 0 e with he | he
  · -- a non-negative exponent leaves only zero below one
    have h2 : (1 : ℚ) ≤ (2 : ℚ) ^ e := one_le_zpow₀ (by norm_num) he
    rcases Nat.eq_zero_or_pos m with hz | hz
    · rw [hr, hz]; norm_num
    · have h3 : (1 : ℚ) ≤ (m : ℚ) := by exact_mod_cast hz
      have : (1 : ℚ) ≤ (m : ℚ) * (2 : ℚ) ^ e := by
        calc (1 : ℚ) = 1 * 1 := by ring
          _ ≤ (m : ℚ) * (2 : ℚ) ^ e := mul_le_mul h3 h2 (by norm_num) (by linarith)
      linarith
  · obtain ⟨j, hj⟩ := Int.exists_eq_neg_ofNat he.le
    have hJ : (0 : ℚ) < (2 : ℚ) ^ j := by positivity
    have h2e : (2 : ℚ) ^ e = ((2 : ℚ) ^ j)⁻¹ := by rw [hj, zpow_neg, zpow_natCast]
    rw [h2e] at hr
    have hmj : (m : ℚ) < (2 : ℚ) ^ j := by
      have : (m : ℚ) * ((2 : ℚ) ^ j)⁻¹ < 1 := by rw [← hr]; exact h1
      have h4 := mul_lt_mul_of_pos_right this hJ
      rwa [mul_assoc, inv_mul_cancel₀ hJ.ne', mul_one, one_mul] at h4
    have hmj2 : (m : ℚ) ≤ (2 : ℚ) ^ j - 1 := by
      have h5 : m < 2 ^ j := by exact_mod_cast hmj
      have h6 : ((m + 1 : Nat) : ℚ) ≤ ((2 ^ j : Nat) : ℚ) := by exact_mod_cast h5
      push_cast at h6
      linarith
    rw [hr]
    rcases le_or_lt j 53 with hj53 | hj53
    · have hpow : (2 : ℚ) ^ j ≤ 2 ^ 53 := pow_le_pow_right₀ (by norm_num) hj53
      have h7 : (m : ℚ) * ((2 : ℚ) ^ j)⁻¹ ≤ 1 - ((2 : ℚ) ^ j)⁻¹ := by
        calc (m : ℚ) * ((2 : ℚ) ^ j)⁻¹ ≤ ((2 : ℚ) ^ j - 1) * ((2 : ℚ) ^ j)⁻¹ :=
              mul_le_mul_of_nonneg_right hmj2 (inv_pos.mpr hJ).le
          _ = 1 - ((2 : ℚ) ^ j)⁻¹ := by
              rw [sub_mul, mul_inv_cancel₀ hJ.ne', one_mul]
      have h8 : ((2 : ℚ) ^ 53)⁻¹ ≤ ((2 : ℚ) ^ j)⁻¹ := inv_anti₀ hJ hpow
      have h9 : (1 : ℚ) / 2 ^ 53 = ((2 : ℚ) ^ 53)⁻¹ := one_div _
      linarith
    · have hpow : (2 : ℚ) ^ 53 ≤ 2 ^ j := pow_le_pow_right₀ (by norm_num) hj53.le
      have h8 : ((2 : ℚ) ^ j)⁻¹ ≤ ((2 : ℚ) ^ 53)⁻¹ := inv_anti₀ (by positivity) hpow
      calc (m : ℚ) * ((2 : ℚ) ^ j)⁻¹ ≤ (2 ^ 53 - 1) * ((2 : ℚ) ^ 53)⁻¹ :=
            mul_le_mul hm2 h8 (inv_pos.mpr hJ).le (by norm_num)
        _ = 1 - 1 / 2 ^ 53 := by norm_num

theorem floor_draw_bounds (r : ℚ) (total : Nat) (hb : IsBinary64 r) (h0 : 0 ≤ r) (h1 : r < 1)
    (ht : 0 < total) (ht2 : total ≤ 2 ^ 53) :
    0 ≤ Int.floor (roundBinary64 (r * (total : ℚ))) ∧
      Int.floor (roundBinary64 (r * (total : ℚ))) < (total : Int) := by
  have htq : (0 : ℚ) < (total : ℚ) := by exact_mod_cast ht
  have hx0 : 0 ≤ r * (total : ℚ) := mul_nonneg h0 htq.le
  rcases hx0.eq_or_lt with hz | hpos
  · rw [← hz, roundBinary64_zero]
    simp [ht]
  · have hxt : r * (total : ℚ) < (total : ℚ) := by
      have := mul_lt_mul_of_pos_right h1 htq
      simpa using this
    have hxb : r * (total : ℚ) ≤ (total : ℚ) * (1 - 1 / 2 ^ 53) := by
      rw [mul_comm]
      exact mul_le_mul_of_nonneg_left (binary64_below_one r hb h0 h1) htq.le
    obtain ⟨hq, hT⟩ := ulpExponent_facts (r * (total : ℚ)) total hpos hxt ht2
    constructor
    · apply Int.floor_nonneg.mpr
      unfold roundBinary64
      apply mul_nonneg
      · have := roundHalfEven_nonneg (r * (total : ℚ) / (2 : ℚ) ^ ulpExponent (r * (total : ℚ)))
          (div_nonneg hx0 (by positivity))
        exact_mod_cast this
      · positivity
    · rw [Int.floor_lt]
      unfold roundBinary64
      exact_mod_cast round_scaled_lt (r * (total : ℚ)) _ total hq hT hxb

theorem pushDraws_bounds (rand : Nat → ℚ) (total n : Nat)
    (hr : ∀ i, IsBinary64 (rand i) ∧ 0 ≤ rand i ∧ rand i < 1) (ht : 0 < total)
    (ht2 : total ≤ 2 ^ 53) :
    ∀ x ∈ pushDraws rand total n, 0 ≤ x ∧ x < (total : Int) := by
  induction n with
  | zero => intro x hx; simp [pushDraws] at hx
  | succ n ih =>
    intro x hx
    simp only [pushDraws, List.mem_append, List.mem_singleton] at hx
    rcases hx with hx | hx
    · exact ih x hx
    · subst hx
      exact floor_draw_bounds (rand n) total (hr n).1 (hr n).2.1 (hr n).2.2 ht ht2

theorem createRandomSequence_bounds (rand : Nat → ℚ) (gridSize length : Nat)
    (hr : ∀ i, IsBinary64 (rand i) ∧ 0 ≤ rand i ∧ rand i < 1) (hg : 0 < gridSize)
    (hg5 : gridSize ≤ 5) :
    ∀ x ∈ createRandomSequence rand gridSize length,
      0 ≤ x ∧ x < ((gridSize * gridSize : Nat) : Int) := by
  unfold createRandomSequence
  have h25 : gridSize * gridSize ≤ 5 * 5 := Nat.mul_le_mul hg5 hg5
  exact pushDraws_bounds rand (gridSize * gridSize) length hr (Nat.mul_pos hg hg)
    (le_trans h25 (by norm_num))

theorem ulpExponent_one_two (x : ℚ) (h1 : 1 ≤ x) (h2 : x < 2) : ulpExponent x = -52 := by
  have hpos : 0 < x := by linarith
  have hlog : Int.log 2 x = 0 := by
    have ha : (0 : Int) ≤ Int.log 2 x := by
      have := (Int.zpow_le_iff_le_log (b := 2) (by norm_num) hpos (x := 0)).mp (by simpa using h1)
      exact this
    have hb : Int.log 2 x < 1 := by
      exact (Int.lt_zpow_iff_log_lt (b := 2) (by norm_num) hpos (x := 1)).mp (by simpa using h2)
    omega
  unfold ulpExponent
  rw [abs_of_pos hpos, hlog]
  rfl

/-- A draw whose exact product 2 - 2^-53 lies half way between two binary64
numbers: the product rounds up to 2 and the cell pushed is 2, not 1. -/
theorem draw_rounds_up :
    createRandomSequence (fun _ => 2001599834386887 / 2 ^ 53) 3 1 = [2] := by
  have hx : ((2001599834386887 : ℚ) / 2 ^ 53) * ((3 * 3 : Nat) : ℚ) = 18014398509481983 / 2 ^ 53 := by
    norm_num
  have hu := ulpExponent_one_two (18014398509481983 / 2 ^ 53) (by norm_num) (by norm_num)
  have hfl : Int.floor ((18014398509481983 : ℚ) / 2 ^ 53 / 2 ^ (-52 : Int)) = 9007199254740991 := by
    rw [Int.floor_eq_iff]
    constructor <;> norm_num
  have hr : roundBinary64 (18014398509481983 / 2 ^ 53) = 2 := by
    unfold roundBinary64
    rw [hu]
    unfold roundHalfEven
    simp only [hfl]
    norm_num
  simp only [createRandomSequence, pushDraws, List.nil_append]
  rw [hx, hr]
  norm_num

theorem isBinary64_zero : IsBinary64 0 :=
  ⟨0, 0, by norm_num, by norm_num, by norm_num, by norm_num⟩

theorem isBinary64_half : IsBinary64 (1 / 2) :=
  ⟨1, -1, by norm_num, by norm_num, by norm_num, by norm_num [abs_of_pos]⟩

theorem samplePlayback_randOk : ∀ e ∈ samplePlayback, e.randOk := by
  have h : IsBinary64 (2⁻¹ : ℚ) := by
    have h2 := isBinary64_half
    rwa [one_div] at h2
  simp [samplePlayback, Event.randOk]
  exact ⟨h, by norm_num⟩

/-! ## Single handlers -/

theorem tick_no_interval (s : State) (h : s.interval = none) : tick s = s := by
  simp [tick, h]

theorem tick_iterate_no_interval (s : State) (h : s.interval = none) (n : Nat) :
    tick^[n] s = s := by
  induction n with
  | zero => rfl
  | succ n ih => rw [Function.iterate_succ_apply', ih, tick_no_interval s h]

theorem handleTileClick_other_phase (rand : Nat → ℚ) (index : Int) (s : State)
    (h : s.phase ≠ Phase.input) : handleTileClick rand index s = s := by
  simp [handleTileClick, h]

theorem handleTileClick_mismatch_eq (rand : Nat → ℚ) (index : Int) (s : State)
    (hp : s.phase = Phase.input) (hc : s.sequence[s.stepIndex]? ≠ some index) :
    handleTileClick rand index s =
      { s with interval := none, phase := Phase.gameover, showIndex := some index,
               message := "Game over. Tap RESTART to try again." } := by
  have hc2 : ¬ (some index = s.sequence[s.stepIndex]?) := fun h => hc h.symm
  simp [handleTileClick, hp, hc2, clearTimer]

theorem handleTileClick_advance_eq (rand : Nat → ℚ) (index : Int) (s : State)
    (hp : s.phase = Phase.input) (hc : s.sequence[s.stepIndex]? = some index)
    (hl : s.stepIndex + 1 < s.sequence.length) :
    handleTileClick rand index s = { s with stepIndex := s.stepIndex + 1 } := by
  have hl2 : ¬ (s.sequence.length ≤ s.stepIndex + 1) := by omega
  simp [handleTileClick, hp, hc, hl2]

theorem handleTileClick_complete_eq (rand : Nat → ℚ) (index : Int) (s : State)
    (h : completes s index) :
    handleTileClick rand index s =
      { gridSize := grownGridSize s
        sequence := createRandomSequence rand (grownGridSize s) (nextLength s)
        phase := Phase.showing
        showIndex := (createRandomSequence rand (grownGridSize s) (nextLength s))[0]?
        stepIndex := s.stepIndex
        round := s.round + 1
        score := s.score + s.sequence.length * 10
        bestScore := max s.bestScore ((s.score + s.sequence.length * 10 : Nat) : Int)
        message := "Watch the pattern..."
        interval :=
          some { seq := createRandomSequence rand (grownGridSize s) (nextLength s), i := 0 } } := by
  obtain ⟨hp, hc, hl⟩ := h
  have hl2 : s.sequence.length ≤ s.stepIndex + 1 := hl
  unfold nextLength grownGridSize
  by_cases hb : ((s.score + s.sequence.length * 10 : Nat) : Int) > s.bestScore
  · have hm : max s.bestScore ((s.score + s.sequence.length * 10 : Nat) : Int)
        = ((s.score + s.sequence.length * 10 : Nat) : Int) := max_eq_right hb.le
    rw [hm]
    simp only [handleTileClick, hp, hc, hl2, runShowSequence, clearTimer]
    push_cast at hb
    simp [hb]
  · have hm : max s.bestScore ((s.score + s.sequence.length * 10 : Nat) : Int)
        = s.bestScore := max_eq_left (not_lt.mp hb)
    rw [hm]
    simp only [handleTileClick, hp, hc, hl2, runShowSequence, clearTimer]
    push_cast at hb
    simp [hb]

theorem bestScore_le_step (s : State) (e : Event) : s.bestScore ≤ (step s e).bestScore := by
  cases e with
  | start rand => simp [step, startGame, runShowSequence, clearTimer]
  | tick =>
    simp only [step, tick]
    split
    · exact le_refl _
    · split <;> simp [clearTimer]
  | tap index rand =>
    simp only [step]
    by_cases hp : s.phase = Phase.input
    · by_cases hc : s.sequence[s.stepIndex]? = some index
      · by_cases hl : s.stepIndex + 1 < s.sequence.length
        · rw [handleTileClick_advance_eq rand index s hp hc hl]
        · rw [handleTileClick_complete_eq rand index s ⟨hp, hc, by omega⟩]
          exact le_max_left _ _
      · rw [handleTileClick_mismatch_eq rand index s hp hc]
    · rw [handleTileClick_other_phase rand index s hp]

theorem playback_before_end (seq : List Int) (s : State) (k : Nat) (hk : k < seq.length) :
    tick^[k] (runShowSequence seq s) =
      { runShowSequence seq s with
        interval := some { seq := seq, i := k }, showIndex := seq[k]? } := by
  induction k with
  | zero => simp [runShowSequence]
  | succ k ih =>
    have hk2 : k < seq.length := by omega
    have hk3 : ¬ (seq.length ≤ k + 1) := by omega
    rw [Function.iterate_succ_apply', ih hk2]
    simp [tick, hk3]

theorem playback_last (seq : List Int) (s : State) (h : seq ≠ []) :
    tick^[seq.length] (runShowSequence seq s) =
      { runShowSequence seq s with
        interval := none, showIndex := some (-1), stepIndex := 0, phase := Phase.input,
        message := "Now tap the tiles in order." } := by
  have hpos : 0 < seq.length := List.length_pos.mpr h
  obtain ⟨n, hn⟩ : ∃ n, seq.length = n + 1 := ⟨seq.length - 1, by omega⟩
  rw [hn, Function.iterate_succ_apply', playback_before_end seq s n (by omega)]
  simp [tick, hn, clearTimer]

/-! ## Invariants of the transition system -/

/-- The four shapes a tap can take, with the state each one produces. -/
theorem tap_cases (rand : Nat → ℚ) (c : Int) (s : State) :
    (s.phase ≠ Phase.input ∧ handleTileClick rand c s = s) ∨
    (s.phase = Phase.input ∧ s.sequence[s.stepIndex]? ≠ some c ∧
      handleTileClick rand c s =
        { s with interval := none, phase := Phase.gameover, showIndex := some c,
                 message := "Game over. Tap RESTART to try again." }) ∨
    (s.phase = Phase.input ∧ s.sequence[s.stepIndex]? = some c ∧
      s.stepIndex + 1 < s.sequence.length ∧
      handleTileClick rand c s = { s with stepIndex := s.stepIndex + 1 }) ∨
    (completes s c ∧
      handleTileClick rand c s =
        { gridSize := grownGridSize s
          sequence := createRandomSequence rand (grownGridSize s) (nextLength s)
          phase := Phase.showing
          showIndex := (createRandomSequence rand (grownGridSize s) (nextLength s))[0]?
          stepIndex := s.stepIndex
          round := s.round + 1
          score := s.score + s.sequence.length * 10
          bestScore := max s.bestScore ((s.score + s.sequence.length * 10 : Nat) : Int)
          message := "Watch the pattern..."
          interval :=
            some { seq := createRandomSequence rand (grownGridSize s) (nextLength s), i := 0 } }) := by
  by_cases hp : s.phase = Phase.input
  · by_cases hc : s.sequence[s.stepIndex]? = some c
    · by_cases hl : s.stepIndex + 1 < s.sequence.length
      · exact Or.inr (Or.inr (Or.inl ⟨hp, hc, hl, handleTileClick_advance_eq rand c s hp hc hl⟩))
      · have h : completes s c := ⟨hp, hc, by omega⟩
        exact Or.inr (Or.inr (Or.inr ⟨h, handleTileClick_complete_eq rand c s h⟩))
    · exact Or.inr (Or.inl ⟨hp, hc, handleTileClick_mismatch_eq rand c s hp hc⟩)
  · exact Or.inl ⟨hp, handleTileClick_other_phase rand c s hp⟩

/-- The two shapes a tick can take when an interval is pending. -/
theorem tick_cases (s : State) :
    (s.interval = none ∧ tick s = s) ∨
    (∃ t, s.interval = some t ∧ t.i + 1 ≥ t.seq.length ∧
      tick s = { s with interval := none, showIndex := some (-1), stepIndex := 0,
                        phase := Phase.input, message := "Now tap the tiles in order." }) ∨
    (∃ t, s.interval = some t ∧ t.i + 1 < t.seq.length ∧
      tick s = { s with interval := some { seq := t.seq, i := t.i + 1 },
                        showIndex := t.seq[t.i + 1]? }) := by
  cases hi : s.interval with
  | none => exact Or.inl ⟨rfl, by simp [tick, hi]⟩
  | some t =>
    by_cases hl : t.i + 1 ≥ t.seq.length
    · refine Or.inr (Or.inl ⟨t, rfl, hl, ?_⟩)
      have hl2 : t.seq.length ≤ t.i + 1 := hl
      simp [tick, hi, hl2, clearTimer]
    · refine Or.inr (Or.inr ⟨t, rfl, by omega, ?_⟩)
      have hl2 : ¬ (t.seq.length ≤ t.i + 1) := hl
      simp [tick, hi, hl2]

theorem timerInv_init (best : Int) : TimerInv (initState best) := by
  intro h; exact absurd rfl h

theorem timerInv_step (s : State) (e : Event) (h : TimerInv s) : TimerInv (step s e) := by
  cases e with
  | start rand => intro _; rfl
  | tick =>
    simp only [step]
    rcases tick_cases s with ⟨_, h2⟩ | ⟨t, _, _, h2⟩ | ⟨t, h1, _, h2⟩
    · rw [h2]; exact h
    · rw [h2]; intro hn; exact absurd rfl hn
    · rw [h2]; intro _; exact h (by simp [h1])
  | tap c rand =>
    simp only [step]
    rcases tap_cases rand c s with ⟨_, h2⟩ | ⟨_, _, h2⟩ | ⟨hp, _, _, h2⟩ | ⟨_, h2⟩
    · rw [h2]; exact h
    · rw [h2]; intro hn; exact absurd rfl hn
    · rw [h2]; intro hn
      have := h hn
      rw [hp] at this
      exact absurd this (by decide)
    · rw [h2]; intro _; rfl

theorem timerInv_run (s : State) (evs : List Event) (h : TimerInv s) :
    TimerInv (run s evs) := by
  induction evs generalizing s with
  | nil => exact h
  | cons e evs ih => exact ih (step s e) (timerInv_step s e h)

theorem grownGridSize_bounds (s : State) (h3 : 3 ≤ s.gridSize) (h5 : s.gridSize ≤ 5) :
    3 ≤ grownGridSize s ∧ grownGridSize s ≤ 5 ∧ s.gridSize ≤ grownGridSize s := by
  unfold grownGridSize MAX_GRID_SIZE
  split <;> omega

theorem grownGridSize_ge (s : State) : s.gridSize ≤ grownGridSize s := by
  unfold grownGridSize
  split <;> omega

theorem shape_init (best : Int) : Shape (initState best) := by
  simp [Shape, initState, MIN_GRID_SIZE]

theorem shape_startGame (rand : Nat → ℚ) (s : State) : Shape (startGame rand s) := by
  refine ⟨le_refl 3, by show 3 ≤ 5; omega, Nat.zero_le _, ?_⟩
  show (createRandomSequence rand 3 3).length ≤ 3 * 3
  rw [createRandomSequence_length]
  decide

theorem shape_step (s : State) (e : Event) (h : Shape s) : Shape (step s e) := by
  obtain ⟨h3, h5, hs, hl⟩ := h
  cases e with
  | start rand => exact shape_startGame rand s
  | tick =>
    simp only [step]
    rcases tick_cases s with ⟨_, h2⟩ | ⟨t, _, _, h2⟩ | ⟨t, _, _, h2⟩
    · rw [h2]; exact ⟨h3, h5, hs, hl⟩
    · rw [h2]; exact ⟨h3, h5, Nat.zero_le _, hl⟩
    · rw [h2]; exact ⟨h3, h5, hs, hl⟩
  | tap c rand =>
    simp only [step]
    rcases tap_cases rand c s with ⟨_, h2⟩ | ⟨_, _, h2⟩ | ⟨_, _, hlt, h2⟩ | ⟨_, h2⟩
    · rw [h2]; exact ⟨h3, h5, hs, hl⟩
    · rw [h2]; exact ⟨h3, h5, hs, hl⟩
    · rw [h2]; exact ⟨h3, h5, Nat.le_of_lt hlt, hl⟩
    · rw [h2]
      obtain ⟨g3, g5, gge⟩ := grownGridSize_bounds s h3 h5
      have hmul : s.gridSize * s.gridSize ≤ grownGridSize s * grownGridSize s :=
        Nat.mul_le_mul gge gge
      refine ⟨g3, g5, ?_, ?_⟩
      · show s.stepIndex ≤ (createRandomSequence rand (grownGridSize s) (nextLength s)).length
        rw [createRandomSequence_length]
        unfold nextLength
        omega
      · show (createRandomSequence rand (grownGridSize s) (nextLength s)).length ≤
          grownGridSize s * grownGridSize s
        rw [createRandomSequence_length]
        unfold nextLength
        omega

theorem shape_run (s : State) (evs : List Event) (h : Shape s) : Shape (run s evs) := by
  induction evs generalizing s with
  | nil => exact h
  | cons e evs ih => exact ih (step s e) (shape_step s e h)

theorem inRange_step (s : State) (e : Event) (hs : Shape s) (h : InRange s)
    (hr : e.randOk) : InRange (step s e) := by
  cases e with
  | start rand =>
    exact createRandomSequence_bounds rand 3 3 hr (by decide) (by decide)
  | tick =>
    simp only [step]
    rcases tick_cases s with ⟨_, h2⟩ | ⟨t, _, _, h2⟩ | ⟨t, _, _, h2⟩
    · rw [h2]; exact h
    · rw [h2]; exact h
    · rw [h2]; exact h
  | tap c rand =>
    simp only [step]
    rcases tap_cases rand c s with ⟨_, h2⟩ | ⟨_, _, h2⟩ | ⟨_, _, _, h2⟩ | ⟨_, h2⟩
    · rw [h2]; exact h
    · rw [h2]; exact h
    · rw [h2]; exact h
    · rw [h2]
      obtain ⟨g3, g5, _⟩ := grownGridSize_bounds s hs.1 hs.2.1
      exact createRandomSequence_bounds rand (grownGridSize s) (nextLength s) hr (by omega) g5

theorem shape_inRange_run (s : State) (evs : List Event) (hs : Shape s) (h : InRange s)
    (hr : ∀ e ∈ evs, e.randOk) : Shape (run s evs) ∧ InRange (run s evs) := by
  induction evs generalizing s with
  | nil => exact ⟨hs, h⟩
  | cons e evs ih =>
    exact ih (step s e) (shape_step s e hs)
      (inRange_step s e hs h (hr e (List.mem_cons_self e evs)))
      (fun e2 he2 => hr e2 (List.mem_cons_of_mem e he2))

/-- The phase changes a single step can make from a state that satisfies the
interval invariant. -/
theorem phase_step (s : State) (e : Event) (h : TimerInv s) :
    (s.phase ≠ Phase.input → (step s e).phase = Phase.input →
      e = Event.tick ∧ s.phase = Phase.showing) ∧
    (s.phase ≠ Phase.gameover → (step s e).phase = Phase.gameover →
      ∃ c rand, e = Event.tap c rand ∧ s.phase = Phase.input ∧
        s.sequence[s.stepIndex]? ≠ some c) ∧
    (s.phase = Phase.gameover → (step s e).phase ≠ Phase.gameover →
      (∃ rand, e = Event.start rand) ∧ (step s e).phase = Phase.showing) ∧
    ((step s e).phase = Phase.idle → s.phase = Phase.idle) := by
  cases e with
  | start rand =>
    have hp : (step s (Event.start rand)).phase = Phase.showing := rfl
    rw [hp]
    refine ⟨?_, ?_, ?_, ?_⟩
    · intro _ h2; exact absurd h2 (by simp)
    · intro _ h2; exact absurd h2 (by simp)
    · intro _ _; exact ⟨⟨rand, rfl⟩, rfl⟩
    · intro h2; exact absurd h2 (by simp)
  | tick =>
    have hstep : step s Event.tick = tick s := rfl
    rw [hstep]
    rcases tick_cases s with ⟨_, h2⟩ | ⟨t, h1, _, h2⟩ | ⟨t, _, _, h2⟩
    · rw [h2]
      exact ⟨fun a b => absurd b a, fun a b => absurd b a, fun a b => absurd a b, fun a => a⟩
    · rw [h2]
      have hs : s.phase = Phase.showing := h (by simp [h1])
      refine ⟨fun _ _ => ⟨rfl, hs⟩, ?_, ?_, ?_⟩
      · intro _ h3; exact absurd h3 (by simp)
      · intro h3; rw [hs] at h3; exact absurd h3 (by simp)
      · intro h3; exact absurd h3 (by simp)
    · rw [h2]
      exact ⟨fun a b => absurd b a, fun a b => absurd b a, fun a b => absurd a b, fun a => a⟩
  | tap c rand =>
    have hstep : step s (Event.tap c rand) = handleTileClick rand c s := rfl
    rw [hstep]
    rcases tap_cases rand c s with ⟨_, h2⟩ | ⟨hp, hc, h2⟩ | ⟨_, _, _, h2⟩ | ⟨hc, h2⟩
    · rw [h2]
      exact ⟨fun a b => absurd b a, fun a b => absurd b a, fun a b => absurd a b, fun a => a⟩
    · rw [h2]
      refine ⟨?_, fun _ _ => ⟨c, rand, rfl, hp, hc⟩, ?_, ?_⟩
      · intro h3; exact absurd hp h3
      · intro h3; rw [hp] at h3; exact absurd h3 (by simp)
      · intro h3; exact absurd h3 (by simp)
    · rw [h2]
      exact ⟨fun a b => absurd b a, fun a b => absurd b a, fun a b => absurd a b, fun a => a⟩
    · rw [h2]
      have hp : s.phase = Phase.input := hc.1
      refine ⟨?_, ?_, ?_, ?_⟩
      · intro h3; exact absurd hp h3
      · intro _ h3; exact absurd h3 (by simp)
      · intro h3; rw [hp] at h3; exact absurd h3 (by simp)
      · intro h3; exact absurd h3 (by simp)

theorem gridOfRound_init (best : Int) : GridOfRound (initState best) := by
  show 3 = min 5 (3 + 0 / 3)
  omega

theorem gridOfRound_startGame (rand : Nat → ℚ) (s : State) :
    GridOfRound (startGame rand s) := by
  show 3 = min 5 (3 + 1 / 3)
  omega

theorem grownGridSize_of_round (s : State) (h : GridOfRound s) :
    grownGridSize s = min 5 (3 + (s.round + 1) / 3) := by
  unfold GridOfRound at h
  unfold grownGridSize MAX_GRID_SIZE
  split <;> omega

theorem gridOfRound_step (s : State) (e : Event) (h : GridOfRound s) :
    GridOfRound (step s e) := by
  cases e with
  | start rand => exact gridOfRound_startGame rand s
  | tick =>
    simp only [step]
    rcases tick_cases s with ⟨_, h2⟩ | ⟨t, _, _, h2⟩ | ⟨t, _, _, h2⟩ <;> rw [h2] <;> exact h
  | tap c rand =>
    simp only [step]
    rcases tap_cases rand c s with ⟨_, h2⟩ | ⟨_, _, h2⟩ | ⟨_, _, _, h2⟩ | ⟨_, h2⟩
    · rw [h2]; exact h
    · rw [h2]; exact h
    · rw [h2]; exact h
    · rw [h2]; exact grownGridSize_of_round s h

theorem gridOfRound_run (s : State) (evs : List Event) (h : GridOfRound s) :
    GridOfRound (run s evs) := by
  induction evs generalizing s with
  | nil => exact h
  | cons e evs ih => exact ih (step s e) (gridOfRound_step s e h)

theorem gridSize_le_step (s : State) (e : Event) (he : e.isStart = false) :
    s.gridSize ≤ (step s e).gridSize := by
  cases e with
  | start rand => simp [Event.isStart] at he
  | tick =>
    simp only [step]
    rcases tick_cases s with ⟨_, h2⟩ | ⟨t, _, _, h2⟩ | ⟨t, _, _, h2⟩ <;> rw [h2]
  | tap c rand =>
    simp only [step]
    rcases tap_cases rand c s with ⟨_, h2⟩ | ⟨_, _, h2⟩ | ⟨_, _, _, h2⟩ | ⟨_, h2⟩
    · rw [h2]
    · rw [h2]
    · rw [h2]
    · rw [h2]; exact grownGridSize_ge s

theorem gridSize_le_run (s : State) (evs : List Event)
    (he : ∀ e ∈ evs, e.isStart = false) : s.gridSize ≤ (run s evs).gridSize := by
  induction evs generalizing s with
  | nil => exact le_refl _
  | cons e evs ih =>
    exact le_trans (gridSize_le_step s e (he e (List.mem_cons_self e evs)))
      (ih (step s e) (fun e2 he2 => he e2 (List.mem_cons_of_mem e he2)))

theorem runLog_fst (p : State × List Nat) (evs : List Event) :
    (runLog p evs).1 = run p.1 evs := by
  induction evs generalizing p with
  | nil => rfl
  | cons e evs ih =>
    show (runLog (logStep p e) evs).1 = run (step p.1 e) evs
    rw [ih]
    cases e <;> rfl

theorem runInv_startGame (rand : Nat → ℚ) (s : State) : RunInv (startGame rand s, []) := by
  refine ⟨rfl, gridOfRound_startGame rand s, ?_, rfl⟩
  show (createRandomSequence rand 3 3).length = min (3 + 0) (3 * 3)
  rw [createRandomSequence_length]
  omega

/-- The length of the next pattern in a run, from the number of rounds completed
before this one. -/
theorem nextLength_of_run (s : State) (n : Nat) (hg : GridOfRound s) (hr : s.round = n + 1)
    (hl : s.sequence.length = min (3 + n) (s.gridSize * s.gridSize)) :
    nextLength s = min (3 + (n + 1)) (grownGridSize s * grownGridSize s) := by
  have hg2 := grownGridSize_of_round s hg
  unfold GridOfRound at hg
  unfold nextLength
  rw [hl]
  have h3 : s.gridSize = 3 ∨ s.gridSize = 4 ∨ s.gridSize = 5 := by omega
  have h4 : grownGridSize s = 3 ∨ grownGridSize s = 4 ∨ grownGridSize s = 5 := by omega
  rcases h3 with h3 | h3 | h3 <;> rcases h4 with h4 | h4 | h4 <;> rw [h3] at hg ⊢ <;>
    rw [h4] at hg2 ⊢ <;> omega

theorem runInv_logStep (p : State × List Nat) (e : Event) (h : RunInv p) :
    RunInv (logStep p e) := by
  obtain ⟨s, log⟩ := p
  obtain ⟨hr, hg, hl, hsc⟩ := h
  simp only at hr hg hl hsc
  cases e with
  | start rand => exact runInv_startGame rand s
  | tick =>
    show RunInv (tick s, log)
    rcases tick_cases s with ⟨_, h2⟩ | ⟨t, _, _, h2⟩ | ⟨t, _, _, h2⟩ <;> rw [h2] <;>
      exact ⟨hr, hg, hl, hsc⟩
  | tap c rand =>
    show RunInv (handleTileClick rand c s, if completes s c then log ++ [s.sequence.length] else log)
    rcases tap_cases rand c s with ⟨hp, h2⟩ | ⟨_, hc, h2⟩ | ⟨_, _, hlt, h2⟩ | ⟨hc, h2⟩
    · have hn : ¬ completes s c := fun hc => hp hc.1
      rw [h2, if_neg hn]; exact ⟨hr, hg, hl, hsc⟩
    · have hn : ¬ completes s c := fun hc2 => hc hc2.2.1
      rw [h2, if_neg hn]; exact ⟨hr, hg, hl, hsc⟩
    · have hn : ¬ completes s c := fun hc2 => by have := hc2.2.2; omega
      rw [h2, if_neg hn]; exact ⟨hr, hg, hl, hsc⟩
    · rw [h2, if_pos hc]
      refine ⟨?_, grownGridSize_of_round s hg, ?_, ?_⟩
      · show s.round + 1 = (log ++ [s.sequence.length]).length + 1
        simp [hr]
      · show (createRandomSequence rand (grownGridSize s) (nextLength s)).length =
          min (3 + (log ++ [s.sequence.length]).length) (grownGridSize s * grownGridSize s)
        rw [createRandomSequence_length, nextLength_of_run s log.length hg hr hl]
        simp
      · show s.score + s.sequence.length * 10 =
          ((log ++ [s.sequence.length]).map (fun l => l * 10)).sum
        simp [hsc]

theorem runInv_runLog (p : State × List Nat) (evs : List Event) (h : RunInv p) :
    RunInv (runLog p evs) := by
  induction evs generalizing p with
  | nil => exact h
  | cons e evs ih => exact ih (logStep p e) (runInv_logStep p e h)

/-! ## Claims about single handlers -/

/-- C1: outside the input phase (idle, showing or gameover) a tap on any cell
leaves the whole game state unchanged; in particular stepIndex, score and phase
are the same before and after the tap. -/
theorem tap_outside_input_is_dropped (rand : Nat → ℚ) (c : Int) (s : State)
    (h : s.phase ≠ Phase.input) :
    handleTileClick rand c s = s ∧
      (handleTileClick rand c s).stepIndex = s.stepIndex ∧
      (handleTileClick rand c s).score = s.score ∧
      (handleTileClick rand c s).phase = s.phase := by
  rw [handleTileClick_other_phase rand c s h]
  exact ⟨rfl, rfl, rfl, rfl⟩

theorem tap_outside_input_is_dropped_witness :
    sampleShowing.phase ≠ Phase.input ∧
      (handleTileClick (fun _ => 0) 4 sampleShowing = sampleShowing ∧
        (handleTileClick (fun _ => 0) 4 sampleShowing).stepIndex = sampleShowing.stepIndex ∧
        (handleTileClick (fun _ => 0) 4 sampleShowing).score = sampleShowing.score ∧
        (handleTileClick (fun _ => 0) 4 sampleShowing).phase = sampleShowing.phase) :=
  ⟨by decide, tap_outside_input_is_dropped (fun _ => 0) 4 sampleShowing (by decide)⟩

/-- C2: in the input phase a tap on a cell other than sequence[stepIndex] sets
phase to gameover, makes the tapped cell the active cell, leaves no playback
interval pending, so that no later tick changes the state, and leaves stepIndex,
score, bestScore, round, gridSize and sequence as they were. -/
theorem mismatch_ends_run (rand : Nat → ℚ) (c : Int) (s : State)
    (hp : s.phase = Phase.input) (hc : s.sequence[s.stepIndex]? ≠ some c) :
    (handleTileClick rand c s).phase = Phase.gameover ∧
      (handleTileClick rand c s).showIndex = some c ∧
      (handleTileClick rand c s).interval = none ∧
      (∀ n, tick^[n] (handleTileClick rand c s) = handleTileClick rand c s) ∧
      (handleTileClick rand c s).stepIndex = s.stepIndex ∧
      (handleTileClick rand c s).score = s.score ∧
      (handleTileClick rand c s).bestScore = s.bestScore ∧
      (handleTileClick rand c s).round = s.round ∧
      (handleTileClick rand c s).gridSize = s.gridSize ∧
      (handleTileClick rand c s).sequence = s.sequence := by
  refine ⟨?_, ?_, ?_, ?_, ?_, ?_, ?_, ?_, ?_, ?_⟩
  case refine_4 =>
    intro n
    apply tick_iterate_no_interval
    rw [handleTileClick_mismatch_eq rand c s hp hc]
  all_goals rw [handleTileClick_mismatch_eq rand c s hp hc]

theorem mismatch_ends_run_witness :
    sampleInput.phase = Phase.input ∧
      sampleInput.sequence[sampleInput.stepIndex]? ≠ some 5 ∧
      (handleTileClick (fun _ => 0) 5 sampleInput).phase = Phase.gameover ∧
      (handleTileClick (fun _ => 0) 5 sampleInput).showIndex = some 5 ∧
      (handleTileClick (fun _ => 0) 5 sampleInput).stepIndex = 1 :=
  ⟨by decide, by decide,
    (mismatch_ends_run (fun _ => 0) 5 sampleInput (by decide) (by decide)).1,
    (mismatch_ends_run (fun _ => 0) 5 sampleInput (by decide) (by decide)).2.1,
    (mismatch_ends_run (fun _ => 0) 5 sampleInput (by decide) (by decide)).2.2.2.2.1⟩

/-- C6: from every state startGame yields phase showing, gridSize 3, round 1,
score 0, stepIndex 0, a freshly generated sequence of length exactly 3 whose
first element is the active cell, and the bestScore it found; apart from
bestScore the result does not depend on the state before the call, so a restart
is the same as the first start. -/
theorem startGame_reinitialises (rand : Nat → ℚ) (s : State) :
    (startGame rand s).phase = Phase.showing ∧
      (startGame rand s).gridSize = 3 ∧
      (startGame rand s).round = 1 ∧
      (startGame rand s).score = 0 ∧
      (startGame rand s).stepIndex = 0 ∧
      (startGame rand s).sequence = createRandomSequence rand 3 3 ∧
      (startGame rand s).sequence.length = 3 ∧
      (∃ a b c, (startGame rand s).sequence = [a, b, c] ∧
        (startGame rand s).showIndex = some a) ∧
      (startGame rand s).bestScore = s.bestScore ∧
      (∀ s2 : State,
        startGame rand s = { startGame rand s2 with bestScore := s.bestScore }) ∧
      (∀ best : Int,
        startGame rand s = { startGame rand (initState best) with bestScore := s.bestScore }) := by
  refine ⟨rfl, rfl, rfl, rfl, rfl, rfl, ?_, ?_, rfl, fun _ => rfl, fun _ => rfl⟩
  · exact createRandomSequence_length rand 3 3
  · exact ⟨_, _, _, rfl, rfl⟩

/-- C7: for a non-empty seq, runShowSequence seq at once sets phase to showing
and the active cell to seq[0]; after k ticks with k < seq.length (so in
particular 1 <= k) the active cell is seq[k], the phase is still showing and the
interval is still pending; tick number seq.length clears the active cell
(showIndex = -1), sets stepIndex to 0 and phase to input and cancels the
interval, so that no later tick changes the state. -/
theorem playback_reveals_then_opens_input (seq : List Int) (s : State) (h : seq ≠ []) :
    (runShowSequence seq s).phase = Phase.showing ∧
      (runShowSequence seq s).showIndex = some (seq.head h) ∧
      (∀ k (hk : k < seq.length),
        (tick^[k] (runShowSequence seq s)).showIndex = some seq[k] ∧
        (tick^[k] (runShowSequence seq s)).phase = Phase.showing ∧
        (tick^[k] (runShowSequence seq s)).interval ≠ none) ∧
      (tick^[seq.length] (runShowSequence seq s)).showIndex = some (-1) ∧
      (tick^[seq.length] (runShowSequence seq s)).stepIndex = 0 ∧
      (tick^[seq.length] (runShowSequence seq s)).phase = Phase.input ∧
      (tick^[seq.length] (runShowSequence seq s)).interval = none ∧
      (∀ m, tick^[m] (tick^[seq.length] (runShowSequence seq s)) =
        tick^[seq.length] (runShowSequence seq s)) := by
  refine ⟨rfl, ?_, ?_, ?_, ?_, ?_, ?_, ?_⟩
  · cases seq with
    | nil => exact absurd rfl h
    | cons a t => simp [runShowSequence]
  · intro k hk
    rw [playback_before_end seq s k hk]
    refine ⟨?_, rfl, ?_⟩
    · simp [List.getElem?_eq_getElem hk]
    · simp
  · rw [playback_last seq s h]
  · rw [playback_last seq s h]
  · rw [playback_last seq s h]
  · rw [playback_last seq s h]
  · intro m
    apply tick_iterate_no_interval
    rw [playback_last seq s h]

theorem playback_reveals_then_opens_input_witness :
    ([2, 4, 6] : List Int) ≠ [] ∧
      (tick^[3] (runShowSequence [2, 4, 6] sampleLast)).showIndex = some (-1) ∧
      (tick^[3] (runShowSequence [2, 4, 6] sampleLast)).stepIndex = 0 ∧
      (tick^[3] (runShowSequence [2, 4, 6] sampleLast)).phase = Phase.input :=
  ⟨by decide,
    (playback_reveals_then_opens_input [2, 4, 6] sampleLast (by decide)).2.2.2.1,
    (playback_reveals_then_opens_input [2, 4, 6] sampleLast (by decide)).2.2.2.2.1,
    (playback_reveals_then_opens_input [2, 4, 6] sampleLast (by decide)).2.2.2.2.2.1⟩

/-- C10: bestScore never decreases: every step (startGame, handleTileClick, a
playback tick) from every state leaves it at least as large as before, hence so
does every run, restarts included; a successful round completion sets it to
max(bestScore, new score). -/
theorem bestScore_never_decreases (s : State) :
    (∀ e : Event, s.bestScore ≤ (step s e).bestScore) ∧
      (∀ evs : List Event, s.bestScore ≤ (run s evs).bestScore) ∧
      (∀ (rand : Nat → ℚ) (c : Int), completes s c →
        (handleTileClick rand c s).score = s.score + s.sequence.length * 10 ∧
        (handleTileClick rand c s).bestScore =
          max s.bestScore (((handleTileClick rand c s).score : Nat) : Int)) := by
  refine ⟨bestScore_le_step s, ?_, ?_⟩
  · intro evs
    induction evs generalizing s with
    | nil => exact le_refl _
    | cons e evs ih => exact le_trans (bestScore_le_step s e) (ih (step s e))
  · intro rand c hc
    rw [handleTileClick_complete_eq rand c s hc]
    exact ⟨rfl, rfl⟩

theorem bestScore_never_decreases_witness :
    completes sampleLast 6 ∧
      (handleTileClick (fun _ => 0) 6 sampleLast).score = 60 ∧
      (handleTileClick (fun _ => 0) 6 sampleLast).bestScore = 60 :=
  ⟨by decide, ((bestScore_never_decreases sampleLast).2.2 (fun _ => 0) 6 (by decide)).1,
    ((bestScore_never_decreases sampleLast).2.2 (fun _ => 0) 6 (by decide)).2⟩

/-! ## Claims about reachable states -/

/-- C8: in every state reached from the idle state by startGame, taps and
playback ticks, and for every further step: the phase becomes input only by a
tick taken in phase showing; it becomes gameover only by a mismatching tap taken
in phase input; the only step that leaves gameover is startGame, which leads to
showing; and no step returns to idle. -/
theorem phase_transitions (best : Int) (evs : List Event) (e : Event) :
    ((run (initState best) evs).phase ≠ Phase.input →
      (step (run (initState best) evs) e).phase = Phase.input →
      e = Event.tick ∧ (run (initState best) evs).phase = Phase.showing) ∧
    ((run (initState best) evs).phase ≠ Phase.gameover →
      (step (run (initState best) evs) e).phase = Phase.gameover →
      ∃ c rand, e = Event.tap c rand ∧ (run (initState best) evs).phase = Phase.input ∧
        (run (initState best) evs).sequence[(run (initState best) evs).stepIndex]? ≠ some c) ∧
    ((run (initState best) evs).phase = Phase.gameover →
      (step (run (initState best) evs) e).phase ≠ Phase.gameover →
      (∃ rand, e = Event.start rand) ∧
        (step (run (initState best) evs) e).phase = Phase.showing) ∧
    ((step (run (initState best) evs) e).phase = Phase.idle →
      (run (initState best) evs).phase = Phase.idle) :=
  phase_step (run (initState best) evs) e (timerInv_run _ evs (timerInv_init best))

/-- C9: in every state reached from the idle state by startGame, taps and
playback ticks, with the random source returning binary64 values in [0, 1) and
the product with the number of cells rounded as binary64 arithmetic does:
3 <= gridSize <= 5, 0 <= stepIndex <= sequence.length,
sequence.length <= gridSize * gridSize, and every element of sequence is a cell
index in [0, gridSize * gridSize). -/
theorem reachable_state_bounds (best : Int) (evs : List Event)
    (hr : ∀ e ∈ evs, e.randOk) :
    3 ≤ (run (initState best) evs).gridSize ∧
      (run (initState best) evs).gridSize ≤ 5 ∧
      0 ≤ (run (initState best) evs).stepIndex ∧
      (run (initState best) evs).stepIndex ≤ (run (initState best) evs).sequence.length ∧
      (run (initState best) evs).sequence.length ≤
        (run (initState best) evs).gridSize * (run (initState best) evs).gridSize ∧
      ∀ x ∈ (run (initState best) evs).sequence,
        0 ≤ x ∧
        x < (((run (initState best) evs).gridSize * (run (initState best) evs).gridSize : Nat) : Int) := by
  have hI : InRange (initState best) := by
    intro x hx; simp [initState] at hx
  obtain ⟨⟨h3, h5, hs, hl⟩, hin⟩ :=
    shape_inRange_run (initState best) evs (shape_init best) hI hr
  exact ⟨h3, h5, Nat.zero_le _, hs, hl, hin⟩

theorem phase_transitions_witness :
    (run (initState 0) [Event.start (fun _ => 0), Event.tick, Event.tick]).phase ≠ Phase.input ∧
      (step (run (initState 0) [Event.start (fun _ => 0), Event.tick, Event.tick])
        Event.tick).phase = Phase.input ∧
      (run (initState 0) [Event.start (fun _ => 0), Event.tick, Event.tick]).phase =
        Phase.showing :=
  ⟨by decide, by decide,
    ((phase_transitions 0 [Event.start (fun _ => 0), Event.tick, Event.tick] Event.tick).1
      (by decide) (by decide)).2⟩

theorem reachable_state_bounds_witness :
    (∀ e ∈ samplePlayback, e.randOk) ∧
      (run (initState 0) samplePlayback).gridSize ≤ 5 ∧
      (run (initState 0) samplePlayback).stepIndex ≤
        (run (initState 0) samplePlayback).sequence.length ∧
      ∀ x ∈ (run (initState 0) samplePlayback).sequence,
        0 ≤ x ∧
        x < (((run (initState 0) samplePlayback).gridSize *
          (run (initState 0) samplePlayback).gridSize : Nat) : Int) :=
  ⟨samplePlayback_randOk,
    (reachable_state_bounds 0 samplePlayback samplePlayback_randOk).2.1,
    (reachable_state_bounds 0 samplePlayback samplePlayback_randOk).2.2.2.1,
    (reachable_state_bounds 0 samplePlayback samplePlayback_randOk).2.2.2.2.2⟩

/-! ## Claims about a run begun by startGame -/

/-- C3: in a run begun by startGame, with r the number of rounds completed so
far, the current sequence has length min(3 + r, g * g) for the current grid size
g; in particular the sequence generated by the tap that completes round r has
length min(3 + r, g * g) with g the grid size after the growth rule has been
applied for that completion. Every successful completion, from any state, sets
the next length to min(previous length + 1, new gridSize squared). -/
theorem sequence_length_in_run (s0 : State) (rand : Nat → ℚ) (evs : List Event) :
    (∀ (s : State) (c : Int) (rand2 : Nat → ℚ), completes s c →
      (handleTileClick rand2 c s).sequence.length =
        min (s.sequence.length + 1)
          ((handleTileClick rand2 c s).gridSize * (handleTileClick rand2 c s).gridSize)) ∧
    (runLog (startGame rand s0, []) evs).1.sequence.length =
      min (3 + (runLog (startGame rand s0, []) evs).2.length)
        ((runLog (startGame rand s0, []) evs).1.gridSize *
          (runLog (startGame rand s0, []) evs).1.gridSize) ∧
    (∀ (c : Int) (rand2 : Nat → ℚ), completes (runLog (startGame rand s0, []) evs).1 c →
      (logStep (runLog (startGame rand s0, []) evs) (Event.tap c rand2)).2.length =
        (runLog (startGame rand s0, []) evs).2.length + 1 ∧
      (handleTileClick rand2 c (runLog (startGame rand s0, []) evs).1).gridSize =
        grownGridSize (runLog (startGame rand s0, []) evs).1 ∧
      (handleTileClick rand2 c (runLog (startGame rand s0, []) evs).1).sequence.length =
        min (3 + ((runLog (startGame rand s0, []) evs).2.length + 1))
          ((handleTileClick rand2 c (runLog (startGame rand s0, []) evs).1).gridSize *
            (handleTileClick rand2 c (runLog (startGame rand s0, []) evs).1).gridSize)) := by
  have hinv := runInv_runLog (startGame rand s0, []) evs (runInv_startGame rand s0)
  refine ⟨?_, hinv.2.2.1, ?_⟩
  · intro s c rand2 hc
    rw [handleTileClick_complete_eq rand2 c s hc]
    show (createRandomSequence rand2 (grownGridSize s) (nextLength s)).length = _
    rw [createRandomSequence_length]
    rfl
  · intro c rand2 hc
    have hstep := runInv_logStep (runLog (startGame rand s0, []) evs) (Event.tap c rand2) hinv
    have hlog : (logStep (runLog (startGame rand s0, []) evs) (Event.tap c rand2)).2 =
        (runLog (startGame rand s0, []) evs).2 ++
          [(runLog (startGame rand s0, []) evs).1.sequence.length] := by
      show (if completes _ c then _ else _) = _
      rw [if_pos hc]
    have hlen : (logStep (runLog (startGame rand s0, []) evs) (Event.tap c rand2)).2.length =
        (runLog (startGame rand s0, []) evs).2.length + 1 := by
      rw [hlog]; simp
    refine ⟨hlen, ?_, ?_⟩
    · rw [handleTileClick_complete_eq rand2 c _ hc]
    · have h3 := hstep.2.2.1
      rw [hlen] at h3
      exact h3

theorem sequence_length_in_run_witness :
    completes (runLog (startGame zeroRand (initState 0), []) sampleFirstRound).1 0 ∧
      (handleTileClick zeroRand 0
          (runLog (startGame zeroRand (initState 0), []) sampleFirstRound).1).sequence.length =
        min (3 + ((runLog (startGame zeroRand (initState 0), []) sampleFirstRound).2.length + 1))
          ((handleTileClick zeroRand 0
              (runLog (startGame zeroRand (initState 0), []) sampleFirstRound).1).gridSize *
            (handleTileClick zeroRand 0
              (runLog (startGame zeroRand (initState 0), []) sampleFirstRound).1).gridSize) := by
  have h : completes (runLog (startGame zeroRand (initState 0), []) sampleFirstRound).1 0 := by
    simp [sampleFirstRound, zeroRand, completes, runLog, logStep, startGame, runShowSequence,
      clearTimer, tick, handleTileClick, createRandomSequence, pushDraws, roundBinary64_zero,
      MIN_GRID_SIZE, MAX_GRID_SIZE, initState]
  exact ⟨h,
    ((sequence_length_in_run (initState 0) zeroRand sampleFirstRound).2.2 0 zeroRand h).2.2⟩

/-- C4: on a successful round completion the round counter becomes round + 1
and gridSize becomes gridSize + 1 when (round + 1) mod 3 = 0 and gridSize < 5,
and is unchanged otherwise; gridSize never decreases along steps other than
startGame and never exceeds 5 in a run; in a run begun by startGame it equals
min(5, 3 + round div 3), so it grows at every third value of round until 5; the
completion that makes round equal to 3 changes the grid from 3 to 4 and the next
sequence length is min(previous + 1, 16). -/
theorem grid_growth (s0 : State) (rand : Nat → ℚ) (evs : List Event) :
    (∀ (s : State) (c : Int) (rand2 : Nat → ℚ), completes s c →
      (handleTileClick rand2 c s).round = s.round + 1 ∧
      (handleTileClick rand2 c s).gridSize =
        if (s.round + 1) % 3 = 0 ∧ s.gridSize < 5 then s.gridSize + 1 else s.gridSize) ∧
    (∀ (s : State) (evs2 : List Event), (∀ e ∈ evs2, e.isStart = false) →
      s.gridSize ≤ (run s evs2).gridSize) ∧
    (run (startGame rand s0) evs).gridSize ≤ 5 ∧
    (∀ best : Int, (run (initState best) evs).gridSize ≤ 5) ∧
    (run (startGame rand s0) evs).gridSize =
      min 5 (3 + (run (startGame rand s0) evs).round / 3) ∧
    (∀ (c : Int) (rand2 : Nat → ℚ), completes (run (startGame rand s0) evs) c →
      (handleTileClick rand2 c (run (startGame rand s0) evs)).round = 3 →
      (run (startGame rand s0) evs).gridSize = 3 ∧
      (handleTileClick rand2 c (run (startGame rand s0) evs)).gridSize = 4 ∧
      (handleTileClick rand2 c (run (startGame rand s0) evs)).sequence.length =
        min ((run (startGame rand s0) evs).sequence.length + 1) 16) := by
  refine ⟨?_, gridSize_le_run, ?_, ?_, ?_, ?_⟩
  · intro s c rand2 hc
    rw [handleTileClick_complete_eq rand2 c s hc]
    exact ⟨rfl, rfl⟩
  · exact (shape_run _ evs (shape_startGame rand s0)).2.1
  · intro best
    exact (shape_run _ evs (shape_init best)).2.1
  · exact gridOfRound_run _ evs (gridOfRound_startGame rand s0)
  · intro c rand2 hc
    have hg := gridOfRound_run _ evs (gridOfRound_startGame rand s0)
    have hg2 := grownGridSize_of_round _ hg
    rw [handleTileClick_complete_eq rand2 c _ hc]
    intro hr
    have hr2 : (run (startGame rand s0) evs).round + 1 = 3 := hr
    unfold GridOfRound at hg
    have h3 : (run (startGame rand s0) evs).gridSize = 3 := by omega
    have h4 : grownGridSize (run (startGame rand s0) evs) = 4 := by omega
    refine ⟨h3, h4, ?_⟩
    show (createRandomSequence rand2 _ _).length = _
    rw [createRandomSequence_length]
    unfold nextLength
    rw [h4]

theorem grid_growth_witness :
    completes (run (startGame zeroRand (initState 0)) sampleSecondRound) 0 ∧
      (handleTileClick zeroRand 0
        (run (startGame zeroRand (initState 0)) sampleSecondRound)).round = 3 ∧
      (run (startGame zeroRand (initState 0)) sampleSecondRound).gridSize = 3 ∧
      (handleTileClick zeroRand 0
        (run (startGame zeroRand (initState 0)) sampleSecondRound)).gridSize = 4 ∧
      (handleTileClick zeroRand 0
        (run (startGame zeroRand (initState 0)) sampleSecondRound)).sequence.length =
        min ((run (startGame zeroRand (initState 0)) sampleSecondRound).sequence.length + 1) 16 := by
  have h1 : completes (run (startGame zeroRand (initState 0)) sampleSecondRound) 0 := by
    simp [sampleSecondRound, zeroRand, completes, run, step, startGame, runShowSequence,
      clearTimer, tick, handleTileClick, createRandomSequence, pushDraws, roundBinary64_zero,
      MIN_GRID_SIZE, MAX_GRID_SIZE, initState]
  have h2 : (handleTileClick zeroRand 0
      (run (startGame zeroRand (initState 0)) sampleSecondRound)).round = 3 := by
    simp [sampleSecondRound, zeroRand, run, step, startGame, runShowSequence,
      clearTimer, tick, handleTileClick, createRandomSequence, pushDraws, roundBinary64_zero,
      MIN_GRID_SIZE, MAX_GRID_SIZE, initState]
  exact ⟨h1, h2,
    (grid_growth (initState 0) zeroRand sampleSecondRound).2.2.2.2.2 0 zeroRand h1 h2⟩

/-- C5: in a run begun by startGame, after the n rounds recorded as completed
(with any ticks and taps in between) score is the sum over those rounds of 10
times the length of the sequence reproduced in that round, and round is 1 + n; a
correct tap that is not the last step of the sequence only increments stepIndex
and changes neither score nor phase. Scenario: start, the playback of the
length-3 sequence, then its 3 cells tapped in order give round 2, score 30,
grid 3 and a next sequence of length 4. -/
theorem score_in_run (s0 : State) (rand : Nat → ℚ) (evs : List Event) :
    ((runLog (startGame rand s0, []) evs).1 = run (startGame rand s0) evs ∧
      (runLog (startGame rand s0, []) evs).1.score =
        ((runLog (startGame rand s0, []) evs).2.map (fun l => l * 10)).sum ∧
      (runLog (startGame rand s0, []) evs).1.round =
        1 + (runLog (startGame rand s0, []) evs).2.length) ∧
    (∀ (s : State) (c : Int) (rand2 : Nat → ℚ), s.phase = Phase.input →
      s.sequence[s.stepIndex]? = some c → s.stepIndex + 1 < s.sequence.length →
      handleTileClick rand2 c s = { s with stepIndex := s.stepIndex + 1 } ∧
      (handleTileClick rand2 c s).stepIndex = s.stepIndex + 1 ∧
      (handleTileClick rand2 c s).score = s.score ∧
      (handleTileClick rand2 c s).phase = Phase.input) ∧
    (∀ rand2 : Nat → ℚ,
      (startGame rand s0).sequence.length = 3 ∧
      (startGame rand s0).gridSize = 3 ∧
      (run (startGame rand s0) [Event.tick, Event.tick, Event.tick]).phase = Phase.input ∧
      (run (run (startGame rand s0) [Event.tick, Event.tick, Event.tick])
        ((startGame rand s0).sequence.map (fun c => Event.tap c rand2))).round = 2 ∧
      (run (run (startGame rand s0) [Event.tick, Event.tick, Event.tick])
        ((startGame rand s0).sequence.map (fun c => Event.tap c rand2))).score = 30 ∧
      (run (run (startGame rand s0) [Event.tick, Event.tick, Event.tick])
        ((startGame rand s0).sequence.map (fun c => Event.tap c rand2))).gridSize = 3 ∧
      (run (run (startGame rand s0) [Event.tick, Event.tick, Event.tick])
        ((startGame rand s0).sequence.map (fun c => Event.tap c rand2))).sequence.length = 4) := by
  have hinv := runInv_runLog (startGame rand s0, []) evs (runInv_startGame rand s0)
  refine ⟨⟨runLog_fst _ evs, hinv.2.2.2, ?_⟩, ?_, ?_⟩
  · rw [hinv.1]; omega
  · intro s c rand2 hp hc hl
    rw [handleTileClick_advance_eq rand2 c s hp hc hl]
    exact ⟨rfl, rfl, rfl, hp⟩
  · intro rand2
    simp [run, step, startGame, runShowSequence, clearTimer, tick, handleTileClick,
      createRandomSequence, pushDraws, pushDraws_length, MIN_GRID_SIZE, MAX_GRID_SIZE]
    split <;> simp

theorem score_in_run_witness :
    sampleInput.phase = Phase.input ∧
      sampleInput.sequence[sampleInput.stepIndex]? = some 4 ∧
      sampleInput.stepIndex + 1 < sampleInput.sequence.length ∧
      (handleTileClick (fun _ => 0) 4 sampleInput).stepIndex = 2 ∧
      (handleTileClick (fun _ => 0) 4 sampleInput).score = 0 ∧
      (handleTileClick (fun _ => 0) 4 sampleInput).phase = Phase.input :=
  ⟨by decide, by decide, by decide,
    ((score_in_run (initState 0) (fun _ => 0) []).2.1 sampleInput 4 (fun _ => 0)
      (by decide) (by decide) (by decide)).2⟩

end FarcMind
